import Mathlib

/-!
Shallow embedding of the grilops `regions` module (`RegionConstrainer`).

The module builds, for every lattice position, four integer-valued solver
symbols (`parent`, `subtree_size`, `region_id`, `region_size`) and asserts a
fixed set of constraints over them.  We embed an assignment of concrete
integers to these symbols as four functions `Point → Int`, and the asserted
constraint set as a decidable predicate `RCSat` on such assignments,
translated clause by clause from `RegionConstrainer.__create_grids` and
`RegionConstrainer.__add_constraints`.

The `geometry` module (`Lattice`, `Point`, `Vector`) consumed by
`regions.py` is not part of the excerpted source; its small interface is
modelled from the spec where indicated.
-/

namespace Grilops

/-- Modelled from the spec: a grid location `(y, x)` of the lattice provider
(the geometry module is not part of the excerpted source). -/
structure Point where
  y : Int
  x : Int
deriving DecidableEq

/-- Modelled from the spec: an adjacency direction vector `(dy, dx)` of the
lattice provider. -/
structure Vector where
  dy : Int
  dx : Int
deriving DecidableEq

/-- Modelled from the spec: translating a position by a direction vector
(`translate(position, direction) → position`). -/
def Point.translate (p : Point) (d : Vector) : Point :=
  ⟨p.y + d.dy, p.x + d.dx⟩

/-- Modelled from the spec: the opposite of a direction vector
(`d.negate()` in `regions.py`). -/
def Vector.negate (d : Vector) : Vector :=
  ⟨-d.dy, -d.dx⟩

/-- Modelled from the spec: the lattice provider consumed by the region
encoder — an ordered list of cell positions, the list of adjacency direction
vectors, and the parallel list of their symbolic names. -/
structure Lattice where
  points : List Point
  adjacency_directions : List Vector
  adjacency_direction_names : List String

/-- Modelled from the spec: `point_to_index` maps a position to its dense
index in the ordered position list (bijective with `index_to_point` on valid
positions). -/
def Lattice.point_to_index (l : Lattice) (p : Point) : Nat :=
  l.points.indexOf p

/-- A Python dict built by inserting the elements of `ks` in order, element
`k` receiving value `i + k`; a later insertion of an equal key overwrites an
earlier one, and a lookup of a key never inserted is a `KeyError` (`none`). -/
def buildIndexMap {α : Type} [DecidableEq α] : List α → Nat → (α → Option Nat) → α → Option Nat
  | [], _, d => d
  | k :: ks, i, d => buildIndexMap ks (i + 1) (fun x => if x = k then some i else d x)

/-- The parent-type name list built by `__manage_adjacencies`:
`["X", "R"] + adjacency_direction_names`. -/
def parent_types (l : Lattice) : List String :=
  "X" :: "R" :: l.adjacency_direction_names

/-- `__parent_type_to_index`: the name-keyed dict built by
`__manage_adjacencies`, each name mapped to its position in `parent_types`;
`none` models the `KeyError` of an unrecognized name. -/
def parent_type_to_index (l : Lattice) (name : String) : Option Nat :=
  buildIndexMap (parent_types l) 0 (fun _ => none) name

/-- `__adjacency_to_index`: `dict((v, index + 2) for index, v in
enumerate(adjacency_directions))`; `none` models the `KeyError` of a vector
that is not a declared adjacency direction. -/
def adjacency_to_index (l : Lattice) (d : Vector) : Option Nat :=
  buildIndexMap l.adjacency_directions 2 (fun _ => none) d

/-- The integer value of a parent-type lookup, as used inside the asserted
constraints; the `getD` default is never reached for the names `X` and `R`,
which `__manage_adjacencies` always inserts. -/
def ptIdx (l : Lattice) (name : String) : Int :=
  (((parent_type_to_index l name).getD 0 : Nat) : Int)

/-- The integer value of a direction lookup, as used inside the asserted
constraints; the `getD` default is never reached when the lookup succeeds
(construction would have raised a `KeyError` otherwise). -/
def adjIdx (l : Lattice) (d : Vector) : Int :=
  (((adjacency_to_index l d).getD 0 : Nat) : Int)

/-- A concrete integer assignment to the four per-position symbol grids of a
`RegionConstrainer` — the data a solver model provides. -/
structure Assignment where
  parent : Point → Int
  subtree_size : Point → Int
  region_id : Point → Int
  region_size : Point → Int

/-- The domain and root/absent linkage constraints asserted by
`RegionConstrainer.__create_grids`, translated clause by clause. -/
def create_grids (l : Lattice) (complete : Bool) (min_region_size max_region_size : Int)
    (a : Assignment) : Prop :=
  (∀ p ∈ l.points,
      (if complete then ptIdx l "R" ≤ a.parent p else ptIdx l "X" ≤ a.parent p) ∧
      a.parent p ≤ (l.adjacency_directions.length : Int) + 1) ∧
  (∀ p ∈ l.points,
      (if complete then 1 ≤ a.subtree_size p else 0 ≤ a.subtree_size p) ∧
      a.subtree_size p ≤ max_region_size) ∧
  (∀ p ∈ l.points,
      (if complete then 0 ≤ a.region_id p else -1 ≤ a.region_id p) ∧
      a.region_id p < (l.points.length : Int) ∧
      (a.parent p = ptIdx l "X" → a.region_id p = -1) ∧
      (a.parent p = ptIdx l "R" → a.region_id p = (l.point_to_index p : Int))) ∧
  (∀ p ∈ l.points,
      (if complete then min_region_size ≤ a.region_size p
        else min_region_size ≤ a.region_size p ∨ a.region_size p = -1) ∧
      a.region_size p ≤ max_region_size ∧
      (a.parent p = ptIdx l "X" → a.region_size p = -1) ∧
      (a.parent p = ptIdx l "R" → a.region_size p = a.subtree_size p))

instance create_grids.instDecidable (l : Lattice) (complete : Bool)
    (min_region_size max_region_size : Int) (a : Assignment) :
    Decidable (create_grids l complete min_region_size max_region_size a) := by
  unfold create_grids
  infer_instance

/-- The two implications asserted by the local helper `constrain_side` of
`__add_constraints`, for a cell `p`, its neighbor `sp`, and the parent index
`sd` meaning that the parent of `sp` is `p`. -/
def constrain_side (l : Lattice) (a : Assignment) (p sp : Point) (sd : Int) : Prop :=
  (a.parent p = ptIdx l "X" → a.parent sp ≠ sd) ∧
  (a.parent sp = sd →
    a.region_id p = a.region_id sp ∧ a.region_size p = a.region_size sp)

instance constrain_side.instDecidable (l : Lattice) (a : Assignment) (p sp : Point) (sd : Int) :
    Decidable (constrain_side l a p sp sd) := by
  unfold constrain_side
  infer_instance

/-- The conditional term built by the local helper `subtree_size_term` of
`__add_constraints`. -/
def subtree_size_term (a : Assignment) (sp : Point) (sd : Int) : Int :=
  if a.parent sp = sd then a.subtree_size sp else 0

/-- The list `subtree_size_terms` accumulated by `__add_constraints` for a
cell `p`: the self term, then one term per adjacency direction whose
translation of `p` stays on the lattice. -/
def subtree_size_terms (l : Lattice) (a : Assignment) (p : Point) : List Int :=
  (if a.parent p ≠ ptIdx l "X" then 1 else 0) ::
    l.adjacency_directions.filterMap (fun d =>
      if p.translate d ∈ l.points
      then some (subtree_size_term a (p.translate d) (adjIdx l (d.negate)))
      else none)

/-- The constraints asserted by `RegionConstrainer.__add_constraints`: per
cell and direction, either the `constrain_side` pair (when the neighbor
exists) or the exclusion of the off-lattice direction; plus the subtree-size
sum equation per cell. -/
def add_constraints (l : Lattice) (a : Assignment) : Prop :=
  (∀ p ∈ l.points, ∀ d ∈ l.adjacency_directions,
      if p.translate d ∈ l.points
      then constrain_side l a p (p.translate d) (adjIdx l (d.negate))
      else a.parent p ≠ adjIdx l d) ∧
  (∀ p ∈ l.points, a.subtree_size p = (subtree_size_terms l a p).sum)

instance add_constraints.instDecidable (l : Lattice) (a : Assignment) :
    Decidable (add_constraints l a) := by
  unfold add_constraints
  infer_instance

/-- The full constraint set asserted by `RegionConstrainer` construction:
everything `__create_grids` and `__add_constraints` add to the solver. -/
def RCSat (l : Lattice) (complete : Bool) (min_region_size max_region_size : Int)
    (a : Assignment) : Prop :=
  create_grids l complete min_region_size max_region_size a ∧ add_constraints l a

instance RCSat.instDecidable (l : Lattice) (complete : Bool)
    (min_region_size max_region_size : Int) (a : Assignment) :
    Decidable (RCSat l complete min_region_size max_region_size a) := by
  unfold RCSat
  infer_instance

/-- The dictionary lookups `RegionConstrainer.__init__` performs while
building constraints, in guard form: construction raises only when the
opposite of a direction with an on-lattice neighbor is not itself a declared
direction (`self.__adjacency_to_index[d.negate()]`).  The size bounds are
accepted unexamined. -/
def constructionSucceeds (l : Lattice) (complete : Bool)
    (min_region_size max_region_size : Option Int) : Bool :=
  l.points.all fun p => l.adjacency_directions.all fun d =>
    if p.translate d ∈ l.points then (adjacency_to_index l (d.negate)).isSome else true

/-- `RegionConstrainer.__init__`: resolves the default bounds
(`min_region_size = 1`, `max_region_size = len(points)`), then builds the
constraint set; `none` models a `KeyError` raised during construction. -/
def regionConstrainer (l : Lattice) (complete : Bool)
    (min_region_size max_region_size : Option Int) : Option (Assignment → Prop) :=
  if constructionSucceeds l complete min_region_size max_region_size
  then some (RCSat l complete (min_region_size.getD 1)
    (max_region_size.getD (l.points.length : Int)))
  else none

/-- Python list indexing `xs[i]`: a nonnegative index is in range below the
length, a negative index counts from the end, and anything else raises
`IndexError` (`none`). -/
def pyGet {α : Type} (xs : List α) (i : Int) : Option α :=
  if 0 ≤ i then
    if i < (xs.length : Int) then xs.get? i.toNat else none
  else
    if 0 ≤ i + (xs.length : Int) then xs.get? (i + (xs.length : Int)).toNat else none

/-- `RegionConstrainer.location_to_region_id`: the dense index of the given
position. -/
def location_to_region_id (l : Lattice) (location : Point) : Int :=
  (l.point_to_index location : Int)

/-- `RegionConstrainer.region_id_to_location`:
`self.__lattice.points[region_id]`, with Python list-indexing semantics. -/
def region_id_to_location (l : Lattice) (region_id : Int) : Option Point :=
  pyGet l.points region_id

/-- Modelled from the spec: well-formedness of the lattice provider —
positions form an ordered set, direction vectors and names are distinct and
parallel, names are genuine direction names (not the reserved `X`/`R`), and
every direction has its opposite declared (the encoder looks the opposite up
for every realized neighbor). -/
def Lattice.WF (l : Lattice) : Prop :=
  l.points.Nodup ∧
  l.adjacency_directions.Nodup ∧
  l.adjacency_direction_names.Nodup ∧
  "X" ∉ l.adjacency_direction_names ∧
  "R" ∉ l.adjacency_direction_names ∧
  l.adjacency_direction_names.length = l.adjacency_directions.length ∧
  (∀ d ∈ l.adjacency_directions, d.negate ∈ l.adjacency_directions)

instance Lattice.WF.instDecidable (l : Lattice) : Decidable l.WF := by
  unfold Lattice.WF
  infer_instance

/-- The spec's formulation of the subtree-size sum: over every neighbor `n`
of `p` that exists on the lattice, `subtree_size[n]` if `parent[n]` points
back at `p` (names the direction from `n` toward `p`) and `0` otherwise. -/
def specSubtreeSum (l : Lattice) (a : Assignment) (p : Point) : Int :=
  ((l.adjacency_directions.filter (fun d => decide (p.translate d ∈ l.points))).map
    (fun d =>
      if a.parent (p.translate d) = adjIdx l (d.negate)
      then a.subtree_size (p.translate d) else 0)).sum

/-- A 1×2 rectangular test lattice with the four compass directions. -/
def testLattice : Lattice :=
  ⟨[⟨0, 0⟩, ⟨0, 1⟩],
   [⟨-1, 0⟩, ⟨1, 0⟩, ⟨0, 1⟩, ⟨0, -1⟩],
   ["N", "S", "E", "W"]⟩

/-- A 1×1 rectangular test lattice with the four compass directions. -/
def lattice1 : Lattice :=
  ⟨[⟨0, 0⟩],
   [⟨-1, 0⟩, ⟨1, 0⟩, ⟨0, 1⟩, ⟨0, -1⟩],
   ["N", "S", "E", "W"]⟩

/-- A model of `testLattice` as one region of two cells rooted at `(0,0)`,
with `(0,1)` pointing West at its parent. -/
def testAssignment : Assignment :=
  ⟨fun p => if p = ⟨0, 0⟩ then 1 else 5,
   fun p => if p = ⟨0, 0⟩ then 2 else 1,
   fun _ => 0,
   fun _ => 2⟩

/-- A model of `testLattice` with both cells absent (`complete = false`). -/
def absentAssignment : Assignment :=
  ⟨fun _ => 0, fun _ => 0, fun _ => -1, fun _ => -1⟩

/-- A model of `lattice1`: the single cell is the root of a size-1 region. -/
def rootAssignment : Assignment :=
  ⟨fun _ => 1, fun _ => 1, fun _ => 0, fun _ => 1⟩

theorem buildIndexMap_not_mem {α : Type} [DecidableEq α] (ks : List α) (i : Nat)
    (d : α → Option Nat) (x : α) (hx : x ∉ ks) :
    buildIndexMap ks i d x = d x := by
  induction ks generalizing i d with
  | nil => rfl
  | cons k ks ih =>
    have hne : x ≠ k := fun h => hx (h ▸ List.mem_cons_self k ks)
    have hxs : x ∉ ks := fun h => hx (List.mem_cons_of_mem k h)
    rw [buildIndexMap, ih _ _ hxs, if_neg hne]

theorem buildIndexMap_get {α : Type} [DecidableEq α] (ks : List α) (hnd : ks.Nodup) :
    ∀ (i : Nat) (d : α → Option Nat) (j : Nat) (hj : j < ks.length),
      buildIndexMap ks i d (ks.get ⟨j, hj⟩) = some (i + j) := by
  induction ks with
  | nil => intro i d j hj; exact absurd hj (by simp)
  | cons k ks ih =>
    intro i d j hj
    rw [buildIndexMap]
    cases j with
    | zero =>
      have hk : k ∉ ks := (List.nodup_cons.mp hnd).1
      rw [show (k :: ks).get ⟨0, hj⟩ = k from rfl]
      rw [buildIndexMap_not_mem ks _ _ k hk, if_pos rfl, Nat.add_zero]
    | succ j =>
      have hnd2 := (List.nodup_cons.mp hnd).2
      have hj2 : j < ks.length := by simpa using hj
      rw [show (k :: ks).get ⟨j + 1, hj⟩ = ks.get ⟨j, hj2⟩ from rfl]
      rw [ih hnd2 (i + 1) _ j hj2]
      congr 1
      omega

theorem buildIndexMap_isSome_mono {α : Type} [DecidableEq α] (ks : List α) :
    ∀ (i : Nat) (d : α → Option Nat) (x : α), (d x).isSome →
      (buildIndexMap ks i d x).isSome := by
  induction ks with
  | nil => intro _ _ _ h; exact h
  | cons k ks ih =>
    intro i d x h
    rw [buildIndexMap]
    apply ih
    by_cases hx : x = k
    · rw [if_pos hx]; rfl
    · rw [if_neg hx]; exact h

theorem buildIndexMap_isSome_of_mem {α : Type} [DecidableEq α] (ks : List α) :
    ∀ (i : Nat) (d : α → Option Nat) (x : α), x ∈ ks →
      (buildIndexMap ks i d x).isSome := by
  induction ks with
  | nil => intro _ _ _ h; exact absurd h (List.not_mem_nil _)
  | cons k ks ih =>
    intro i d x hx
    rw [buildIndexMap]
    rcases List.mem_cons.mp hx with h | h
    · apply buildIndexMap_isSome_mono
      rw [if_pos h]; rfl
    · exact ih _ _ _ h

theorem filterMap_ite_eq_map_filter {α β : Type} (q : α → Prop) [DecidablePred q]
    (g : α → β) (xs : List α) :
    (xs.filterMap fun x => if q x then some (g x) else none) =
      (xs.filter fun x => decide (q x)).map g := by
  induction xs with
  | nil => rfl
  | cons x xs ih =>
    by_cases hx : q x
    · simp [List.filterMap_cons, List.filter_cons, hx, ih]
    · simp [List.filterMap_cons, List.filter_cons, hx, ih]

theorem parent_types_nodup (l : Lattice) (hwf : l.WF) : (parent_types l).Nodup := by
  obtain ⟨-, -, hnames, hX, hR, -, -⟩ := hwf
  rw [parent_types]
  refine List.nodup_cons.mpr ⟨?_, List.nodup_cons.mpr ⟨hR, hnames⟩⟩
  intro h
  rcases List.mem_cons.mp h with h | h
  · exact absurd h (by decide)
  · exact hX h

theorem parent_type_to_index_X (l : Lattice) (hwf : l.WF) :
    parent_type_to_index l "X" = some 0 := by
  have h := buildIndexMap_get (parent_types l) (parent_types_nodup l hwf) 0
    (fun _ => none) 0 (by simp [parent_types])
  simpa [parent_type_to_index, parent_types] using h

theorem parent_type_to_index_R (l : Lattice) (hwf : l.WF) :
    parent_type_to_index l "R" = some 1 := by
  have h := buildIndexMap_get (parent_types l) (parent_types_nodup l hwf) 0
    (fun _ => none) 1 (by simp [parent_types])
  simpa [parent_type_to_index, parent_types] using h

theorem parent_type_to_index_name (l : Lattice) (hwf : l.WF) (k : Nat)
    (hk : k < l.adjacency_direction_names.length) :
    parent_type_to_index l (l.adjacency_direction_names.get ⟨k, hk⟩) = some (k + 2) := by
  have hlen : k + 2 < (parent_types l).length := by
    simp only [parent_types, List.length_cons]
    omega
  have h := buildIndexMap_get (parent_types l) (parent_types_nodup l hwf) 0
    (fun _ => none) (k + 2) hlen
  have hget : (parent_types l).get ⟨k + 2, hlen⟩ = l.adjacency_direction_names.get ⟨k, hk⟩ := rfl
  rw [parent_type_to_index, ← hget, h]
  congr 1
  omega

theorem adjacency_to_index_get (l : Lattice) (hnd : l.adjacency_directions.Nodup)
    (k : Nat) (hk : k < l.adjacency_directions.length) :
    adjacency_to_index l (l.adjacency_directions.get ⟨k, hk⟩) = some (k + 2) := by
  have h := buildIndexMap_get l.adjacency_directions hnd 2 (fun _ => none) k hk
  rw [adjacency_to_index, h]
  congr 1
  omega

theorem adjacency_to_index_isSome (l : Lattice) (d : Vector)
    (hd : d ∈ l.adjacency_directions) : (adjacency_to_index l d).isSome :=
  buildIndexMap_isSome_of_mem _ _ _ _ hd

theorem ptIdx_X (l : Lattice) (hwf : l.WF) : ptIdx l "X" = 0 := by
  rw [ptIdx, parent_type_to_index_X l hwf]
  rfl

theorem ptIdx_R (l : Lattice) (hwf : l.WF) : ptIdx l "R" = 1 := by
  rw [ptIdx, parent_type_to_index_R l hwf]
  rfl

theorem adjIdx_get (l : Lattice) (hnd : l.adjacency_directions.Nodup)
    (k : Nat) (hk : k < l.adjacency_directions.length) :
    adjIdx l (l.adjacency_directions.get ⟨k, hk⟩) = (k : Int) + 2 := by
  rw [adjIdx, adjacency_to_index_get l hnd k hk, Option.getD_some]
  omega

/-- C1: in every satisfying assignment of the constraints asserted by
`RegionConstrainer` construction, for every lattice position `p`,
`subtree_size[p]` equals (1 if `parent[p]` is not Absent else 0) plus the
sum, over every neighbor of `p` that exists on the lattice, of that
neighbor's subtree size if its parent points back at `p` and 0 otherwise. -/
theorem C1_subtree_size_recurrence (l : Lattice) (complete : Bool) (mn mx : Int)
    (a : Assignment) (h : RCSat l complete mn mx a) :
    ∀ p ∈ l.points,
      a.subtree_size p =
        (if a.parent p ≠ ptIdx l "X" then 1 else 0) + specSubtreeSum l a p := by
  intro p hp
  have hsum := h.2.2 p hp
  rw [hsum, subtree_size_terms, List.sum_cons]
  congr 1
  rw [specSubtreeSum, filterMap_ite_eq_map_filter
    (fun d => p.translate d ∈ l.points)
    (fun d => subtree_size_term a (p.translate d) (adjIdx l (d.negate)))
    l.adjacency_directions]
  rfl

/-- C2: in every satisfying assignment, a cell whose parent is the Root
index has its own dense index as `region_id` and its `subtree_size` as
`region_size`. -/
theorem C2_root_linkage (l : Lattice) (complete : Bool) (mn mx : Int)
    (a : Assignment) (h : RCSat l complete mn mx a) :
    ∀ p ∈ l.points, a.parent p = ptIdx l "R" →
      a.region_id p = (l.point_to_index p : Int) ∧
        a.region_size p = a.subtree_size p := by
  intro p hp hr
  exact ⟨(h.1.2.2.1 p hp).2.2.2 hr, (h.1.2.2.2 p hp).2.2.2 hr⟩

/-- C3: in every satisfying assignment, when a neighbor `n = p + d` has its
parent pointing back at `p` (its parent symbol is the index of the
direction `-d`), then `p` and `n` share `region_id` and `region_size`. -/
theorem C3_edge_linkage (l : Lattice) (complete : Bool) (mn mx : Int)
    (a : Assignment) (h : RCSat l complete mn mx a) :
    ∀ p ∈ l.points, ∀ d ∈ l.adjacency_directions, p.translate d ∈ l.points →
      a.parent (p.translate d) = adjIdx l (d.negate) →
      a.region_id p = a.region_id (p.translate d) ∧
        a.region_size p = a.region_size (p.translate d) := by
  intro p hp d hd hsp hpar
  have hedge := h.2.1 p hp d hd
  rw [if_pos hsp] at hedge
  exact hedge.2 hpar

/-- C10: in every satisfying assignment, no cell points at an absent
neighbor as its parent, and consequently every absent cell has subtree size
exactly 0, even when `complete` is false. -/
theorem C10_absent_cells_isolated (l : Lattice) (complete : Bool) (mn mx : Int)
    (a : Assignment) (h : RCSat l complete mn mx a) :
    ∀ p ∈ l.points,
      (∀ d ∈ l.adjacency_directions, p.translate d ∈ l.points →
        a.parent p = ptIdx l "X" →
        a.parent (p.translate d) ≠ adjIdx l (d.negate)) ∧
      (a.parent p = ptIdx l "X" → a.subtree_size p = 0) := by
  intro p hp
  constructor
  · intro d hd hsp hx
    have hedge := h.2.1 p hp d hd
    rw [if_pos hsp] at hedge
    exact hedge.1 hx
  · intro hx
    have hsum := h.2.2 p hp
    rw [subtree_size_terms, List.sum_cons, if_neg (by simp [hx]), zero_add] at hsum
    rw [hsum]
    apply List.sum_eq_zero
    intro x hxmem
    rw [List.mem_filterMap] at hxmem
    obtain ⟨d, hd, hfd⟩ := hxmem
    by_cases hm : p.translate d ∈ l.points
    · rw [if_pos hm] at hfd
      have hedge := h.2.1 p hp d hd
      rw [if_pos hm] at hedge
      have hne := hedge.1 hx
      rw [show x = subtree_size_term a (p.translate d) (adjIdx l (d.negate)) from
        (Option.some.inj hfd).symm]
      rw [subtree_size_term, if_neg hne]
    · rw [if_neg hm] at hfd
      exact absurd hfd (by simp)

/-- C4: in every satisfying assignment over a well-formed lattice, every
cell's parent is the Absent index, the Root index, or the index of a
direction whose translation stays on the lattice; no parent names an
off-lattice direction, and Absent is excluded when `complete` is true. -/
theorem C4_parent_domain (l : Lattice) (hwf : l.WF) (complete : Bool) (mn mx : Int)
    (a : Assignment) (h : RCSat l complete mn mx a) :
    ∀ p ∈ l.points,
      (a.parent p = ptIdx l "X" ∨ a.parent p = ptIdx l "R" ∨
        ∃ d ∈ l.adjacency_directions,
          p.translate d ∈ l.points ∧ a.parent p = adjIdx l d) ∧
      (∀ d ∈ l.adjacency_directions, p.translate d ∉ l.points →
        a.parent p ≠ adjIdx l d) ∧
      (complete = true → a.parent p ≠ ptIdx l "X") := by
  intro p hp
  have hX := ptIdx_X l hwf
  have hR := ptIdx_R l hwf
  have hdom := h.1.1 p hp
  have hub : a.parent p ≤ (l.adjacency_directions.length : Int) + 1 := hdom.2
  have hlb : 0 ≤ a.parent p := by
    by_cases hc : complete = true
    · have h1 := hdom.1
      rw [if_pos hc, hR] at h1
      omega
    · have h1 := hdom.1
      rw [if_neg hc, hX] at h1
      omega
  refine ⟨?_, ?_, ?_⟩
  · by_cases h0 : a.parent p = 0
    · left
      rw [hX]
      exact h0
    by_cases h1 : a.parent p = 1
    · right; left
      rw [hR]
      exact h1
    have h2 : 2 ≤ a.parent p := by omega
    have hkbound : (a.parent p - 2).toNat < l.adjacency_directions.length := by omega
    have hadj : adjIdx l
        (l.adjacency_directions.get ⟨(a.parent p - 2).toNat, hkbound⟩) = a.parent p := by
      rw [adjIdx_get l hwf.2.1 _ hkbound]
      omega
    have hmem : l.adjacency_directions.get ⟨(a.parent p - 2).toNat, hkbound⟩ ∈
        l.adjacency_directions := List.get_mem _ _ _
    by_cases hsp :
        p.translate (l.adjacency_directions.get ⟨(a.parent p - 2).toNat, hkbound⟩) ∈ l.points
    · right; right
      exact ⟨_, hmem, hsp, hadj.symm⟩
    · have hedge := h.2.1 p hp _ hmem
      rw [if_neg hsp] at hedge
      exact absurd hadj.symm hedge
  · intro d hd hnot
    have hedge := h.2.1 p hp d hd
    rw [if_neg hnot] at hedge
    exact hedge
  · intro hc
    have h1 := hdom.1
    rw [if_pos hc, hR] at h1
    rw [hX]
    omega

/-- C5 counterexample: `region_id_to_location` does not fail on the
negative argument `-1`; Python list indexing silently returns the last
lattice position. -/
theorem C5_counterexample_negative_index :
    region_id_to_location testLattice (-1) = some ⟨0, 1⟩ := by
  decide

/-- C5 (amended): `region_id_to_location` fails with an out-of-range error
exactly when its argument is at least the number of lattice positions or
below the negation of that number; for a negative argument `id` with
`-n ≤ id < 0` it silently returns the position at dense index `n + id`
(Python negative indexing). -/
theorem C5_amended_range (l : Lattice) (region_id : Int) :
    (region_id_to_location l region_id = none ↔
      region_id < -(l.points.length : Int) ∨ (l.points.length : Int) ≤ region_id) ∧
    (region_id < 0 → -(l.points.length : Int) ≤ region_id →
      region_id_to_location l region_id =
        l.points.get? (region_id + (l.points.length : Int)).toNat) := by
  rw [region_id_to_location, pyGet]
  by_cases hge : 0 ≤ region_id
  · rw [if_pos hge]
    constructor
    · by_cases hlt : region_id < (l.points.length : Int)
      · rw [if_pos hlt]
        constructor
        · intro hnone
          have := List.get?_eq_none.mp hnone
          omega
        · intro hc
          rcases hc with hc | hc
          · exact absurd hc (by omega)
          · exact absurd hc (by omega)
      · rw [if_neg hlt]
        exact ⟨fun _ => Or.inr (by omega), fun _ => rfl⟩
    · intro hneg
      exact absurd hneg (by omega)
  · rw [if_neg hge]
    by_cases hok : 0 ≤ region_id + (l.points.length : Int)
    · rw [if_pos hok]
      constructor
      · constructor
        · intro hnone
          have := List.get?_eq_none.mp hnone
          omega
        · intro hc
          rcases hc with hc | hc
          · exact absurd hc (by omega)
          · exact absurd hc (by omega)
      · intro _ _
        rfl
    · rw [if_neg hok]
      constructor
      · exact ⟨fun _ => Or.inl (by omega), fun _ => rfl⟩
      · intro _ hge2
        exact absurd (by omega : (0 : Int) ≤ region_id + (l.points.length : Int)) hok

/-- C6: construction never examines the region-size bounds — it completes
for every pair, contradictory ones included — and on a nonempty lattice with
`complete = true`, bounds with `max < min` make the asserted constraint set
unsatisfiable rather than failing at construction time. -/
theorem C6_bounds_not_validated (l : Lattice) (hwf : l.WF) :
    (∀ (complete : Bool) (mn mx : Option Int),
      (regionConstrainer l complete mn mx).isSome = true) ∧
    (∀ p ∈ l.points, ∀ mn mx : Int, mx < mn →
      ∀ a : Assignment, ¬ RCSat l true mn mx a) := by
  constructor
  · intro c mn mx
    have hcs : constructionSucceeds l c mn mx = true := by
      rw [constructionSucceeds, List.all_eq_true]
      intro p hp
      rw [List.all_eq_true]
      intro d hd
      by_cases hm : p.translate d ∈ l.points
      · rw [if_pos hm]
        exact adjacency_to_index_isSome l d.negate (hwf.2.2.2.2.2.2 d hd)
      · rw [if_neg hm]
    rw [regionConstrainer, if_pos hcs]
    rfl
  · intro p hp mn mx hlt a h
    have hrs := h.1.2.2.2 p hp
    have h1 := hrs.1
    rw [if_pos rfl] at h1
    have h2 := hrs.2.1
    omega

/-- C7: on the 1×1 lattice with `complete = true` and the resolved default
bounds (`min_region_size = 1`, `max_region_size = 1`): the constraint set is
satisfiable, every satisfying assignment makes the single cell the Root with
region size 1, and `min_region_size = 2` instead makes it unsatisfiable. -/
theorem C7_single_cell_lattice :
    (∃ a : Assignment, RCSat lattice1 true 1 1 a) ∧
    (∀ a : Assignment, RCSat lattice1 true 1 1 a →
      a.parent ⟨0, 0⟩ = ptIdx lattice1 "R" ∧ a.region_size ⟨0, 0⟩ = 1) ∧
    (∀ a : Assignment, ¬ RCSat lattice1 true 2 1 a) := by
  refine ⟨⟨rootAssignment, by decide⟩, ?_, ?_⟩
  · intro a h
    have hdom := h.1.1 ⟨0, 0⟩ (by decide)
    have hub := hdom.2
    have hlb := hdom.1
    rw [if_pos rfl] at hlb
    rw [show ptIdx lattice1 "R" = 1 from by decide] at hlb ⊢
    rw [show (lattice1.adjacency_directions.length : Int) + 1 = 5 from by decide] at hub
    have hedge := h.2.1 ⟨0, 0⟩ (by decide)
    have h1 := hedge ⟨-1, 0⟩ (by decide)
    have h2 := hedge ⟨1, 0⟩ (by decide)
    have h3 := hedge ⟨0, 1⟩ (by decide)
    have h4 := hedge ⟨0, -1⟩ (by decide)
    rw [if_neg (by decide)] at h1 h2 h3 h4
    rw [show adjIdx lattice1 (Vector.mk (-1) 0) = 2 from by decide] at h1
    rw [show adjIdx lattice1 (Vector.mk 1 0) = 3 from by decide] at h2
    rw [show adjIdx lattice1 (Vector.mk 0 1) = 4 from by decide] at h3
    rw [show adjIdx lattice1 (Vector.mk 0 (-1)) = 5 from by decide] at h4
    have hpar : a.parent ⟨0, 0⟩ = 1 := by omega
    refine ⟨hpar, ?_⟩
    have hrs := (h.1.2.2.2 ⟨0, 0⟩ (by decide)).2.2.2 (by rw [hpar]; decide)
    have hsum := h.2.2 ⟨0, 0⟩ (by decide)
    rw [subtree_size_terms, List.sum_cons] at hsum
    have htail : ∀ x ∈ lattice1.adjacency_directions.filterMap (fun d =>
        if Point.translate ⟨0, 0⟩ d ∈ lattice1.points
        then some (subtree_size_term a (Point.translate ⟨0, 0⟩ d) (adjIdx lattice1 d.negate))
        else none), x = (0 : Int) := by
      intro x hx
      rw [List.mem_filterMap] at hx
      obtain ⟨d, hd, hfd⟩ := hx
      have hcases : d = ⟨-1, 0⟩ ∨ d = ⟨1, 0⟩ ∨ d = ⟨0, 1⟩ ∨ d = ⟨0, -1⟩ := by
        simpa [lattice1] using hd
      rcases hcases with rfl | rfl | rfl | rfl <;>
        rw [if_neg (by decide)] at hfd <;> exact absurd hfd (by simp)
    rw [List.sum_eq_zero htail] at hsum
    rw [if_pos (by rw [hpar]; decide)] at hsum
    rw [hrs, hsum]
    norm_num
  · intro a h
    have hrs := h.1.2.2.2 ⟨0, 0⟩ (by decide)
    have h1 := hrs.1
    rw [if_pos rfl] at h1
    have h2 := hrs.2.1
    omega

/-- C8: for every lattice position `p`,
`region_id_to_location (location_to_region_id p) = p`. -/
theorem C8_roundtrip (l : Lattice) (p : Point) (hp : p ∈ l.points) :
    region_id_to_location l (location_to_region_id l p) = some p := by
  have hlt : l.points.indexOf p < l.points.length := List.indexOf_lt_length.mpr hp
  rw [location_to_region_id, Lattice.point_to_index, region_id_to_location, pyGet]
  rw [if_pos (by omega : (0 : Int) ≤ (l.points.indexOf p : Int))]
  rw [if_pos (by exact_mod_cast hlt)]
  rw [show ((l.points.indexOf p : Int)).toNat = l.points.indexOf p by omega]
  exact List.indexOf_get? hp

/-- C9: the parent-type enumeration assigns index 0 to Absent (`X`), index 1
to Root (`R`), and index `k + 2` to the `k`-th adjacency direction in
declared order, and `adjacency_to_index` on the `k`-th direction vector
agrees with `parent_type_to_index` on the `k`-th direction name. -/
theorem C9_parent_type_enumeration (l : Lattice) (hwf : l.WF) :
    parent_type_to_index l "X" = some 0 ∧
    parent_type_to_index l "R" = some 1 ∧
    ∀ (k : Nat) (hk : k < l.adjacency_directions.length)
      (hk2 : k < l.adjacency_direction_names.length),
      parent_type_to_index l (l.adjacency_direction_names.get ⟨k, hk2⟩) = some (k + 2) ∧
      adjacency_to_index l (l.adjacency_directions.get ⟨k, hk⟩) = some (k + 2) := by
  refine ⟨parent_type_to_index_X l hwf, parent_type_to_index_R l hwf, ?_⟩
  intro k hk hk2
  exact ⟨parent_type_to_index_name l hwf k hk2, adjacency_to_index_get l hwf.2.1 k hk⟩

/-- Witness for C1 at the 1×2 lattice and its two-cell region model. -/
theorem C1_subtree_size_recurrence_witness :
    RCSat testLattice true 1 2 testAssignment ∧
    testAssignment.subtree_size ⟨0, 0⟩ =
      (if testAssignment.parent ⟨0, 0⟩ ≠ ptIdx testLattice "X" then 1 else 0) +
        specSubtreeSum testLattice testAssignment ⟨0, 0⟩ :=
  ⟨by decide,
    C1_subtree_size_recurrence testLattice true 1 2 testAssignment (by decide) ⟨0, 0⟩ (by decide)⟩

/-- Witness for C2 at the root cell of the two-cell region model. -/
theorem C2_root_linkage_witness :
    RCSat testLattice true 1 2 testAssignment ∧
    testAssignment.parent ⟨0, 0⟩ = ptIdx testLattice "R" ∧
    testAssignment.region_id ⟨0, 0⟩ = (testLattice.point_to_index ⟨0, 0⟩ : Int) ∧
    testAssignment.region_size ⟨0, 0⟩ = testAssignment.subtree_size ⟨0, 0⟩ := by
  refine ⟨by decide, by decide, ?_⟩
  exact C2_root_linkage testLattice true 1 2 testAssignment (by decide) ⟨0, 0⟩ (by decide)
    (by decide)

/-- Witness for C3 along the east edge of the two-cell region model. -/
theorem C3_edge_linkage_witness :
    RCSat testLattice true 1 2 testAssignment ∧
    testAssignment.region_id ⟨0, 0⟩ =
      testAssignment.region_id (Point.translate ⟨0, 0⟩ ⟨0, 1⟩) ∧
    testAssignment.region_size ⟨0, 0⟩ =
      testAssignment.region_size (Point.translate ⟨0, 0⟩ ⟨0, 1⟩) := by
  refine ⟨by decide, ?_⟩
  exact C3_edge_linkage testLattice true 1 2 testAssignment (by decide) ⟨0, 0⟩ (by decide)
    ⟨0, 1⟩ (by decide) (by decide) (by decide)

/-- Witness for C4 at the non-root cell of the two-cell region model. -/
theorem C4_parent_domain_witness :
    Lattice.WF testLattice ∧ RCSat testLattice true 1 2 testAssignment ∧
    ((testAssignment.parent ⟨0, 1⟩ = ptIdx testLattice "X" ∨
      testAssignment.parent ⟨0, 1⟩ = ptIdx testLattice "R" ∨
      ∃ d ∈ testLattice.adjacency_directions,
        Point.translate ⟨0, 1⟩ d ∈ testLattice.points ∧
          testAssignment.parent ⟨0, 1⟩ = adjIdx testLattice d) ∧
     (∀ d ∈ testLattice.adjacency_directions,
        Point.translate ⟨0, 1⟩ d ∉ testLattice.points →
        testAssignment.parent ⟨0, 1⟩ ≠ adjIdx testLattice d) ∧
     (true = true → testAssignment.parent ⟨0, 1⟩ ≠ ptIdx testLattice "X")) :=
  ⟨by decide, by decide,
    C4_parent_domain testLattice (by decide) true 1 2 testAssignment (by decide) ⟨0, 1⟩
      (by decide)⟩

/-- Witness for the amended C5: an argument below the negated length fails. -/
theorem C5_amended_range_witness :
    region_id_to_location testLattice (-3) = none :=
  (C5_amended_range testLattice (-3)).1.mpr (by decide)

/-- Witness for C6 at the 1×2 lattice with contradictory bounds (5, 2). -/
theorem C6_bounds_not_validated_witness :
    Lattice.WF testLattice ∧
    (regionConstrainer testLattice true (some 5) (some 2)).isSome = true ∧
    ¬ RCSat testLattice true 5 2 absentAssignment := by
  refine ⟨by decide, ?_, ?_⟩
  · exact (C6_bounds_not_validated testLattice (by decide)).1 true (some 5) (some 2)
  · exact (C6_bounds_not_validated testLattice (by decide)).2 ⟨0, 0⟩ (by decide) 5 2
      (by decide) absentAssignment

/-- Witness for C8 at the second cell of the 1×2 lattice. -/
theorem C8_roundtrip_witness :
    (⟨0, 1⟩ : Point) ∈ testLattice.points ∧
    region_id_to_location testLattice (location_to_region_id testLattice ⟨0, 1⟩) =
      some ⟨0, 1⟩ :=
  ⟨by decide, C8_roundtrip testLattice ⟨0, 1⟩ (by decide)⟩

/-- Witness for C9 at the 1×2 lattice and its first direction. -/
theorem C9_parent_type_enumeration_witness :
    parent_type_to_index testLattice "X" = some 0 ∧
    parent_type_to_index testLattice "R" = some 1 ∧
    parent_type_to_index testLattice
      (testLattice.adjacency_direction_names.get ⟨0, by decide⟩) = some 2 ∧
    adjacency_to_index testLattice
      (testLattice.adjacency_directions.get ⟨0, by decide⟩) = some 2 := by
  obtain ⟨h1, h2, h3⟩ := C9_parent_type_enumeration testLattice (by decide)
  obtain ⟨h4, h5⟩ := h3 0 (by decide) (by decide)
  exact ⟨h1, h2, h4, h5⟩

/-- Witness for C10 at the all-absent model with `complete = false`. -/
theorem C10_absent_cells_isolated_witness :
    RCSat testLattice false 1 2 absentAssignment ∧
    absentAssignment.parent ⟨0, 0⟩ = ptIdx testLattice "X" ∧
    absentAssignment.subtree_size ⟨0, 0⟩ = 0 := by
  refine ⟨by decide, by decide, ?_⟩
  exact (C10_absent_cells_isolated testLattice false 1 2 absentAssignment (by decide) ⟨0, 0⟩
    (by decide)).2 (by decide)

end Grilops
